import Mathlib

/-!
Shallow embedding of the backtesting core of the Stock/Crypto ETL repository:
`src/backtesting/portfolio.py`, `src/backtesting/preformance_metrics.py`,
`src/backtesting/backtesting_engine.py` and the strategy layer under
`src/strategies/`.  Python floats are modelled as exact rationals (ℚ); the
one place where IEEE behaviour is observable to the claims (pandas `std()`
of fewer than two observations being NaN, and `NaN == 0` being false) is
modelled explicitly with `Option`/a dedicated result constructor.  Dates
(`datetime`) are modelled as integers counting days, so that
`exit_date - entry_date` (`.days` in Python) is integer subtraction.
-/

/-- Embedding of the `Trade` dataclass from `portfolio.py`.  `exit_date` and
`exit_price` are `None` (here `none`) while the trade is open. -/
structure Trade where
  entry_date : Int
  entry_price : ℚ
  shares : ℚ
  exit_date : Option Int
  exit_price : Option ℚ
deriving DecidableEq, Repr

/-- Embedding of `Trade.is_open`: `self.exit_date is None`. -/
def Trade.is_open (t : Trade) : Bool := t.exit_date.isNone

/-- Embedding of the `Trade.return_pct` property:
`if not self.is_open and self.exit_price:` followed by
`((exit_price - entry_price) / entry_price) * 100`, else `None`.
The Python guard tests the truthiness of `exit_price`, so an exit price
that is `None` or exactly `0.0` yields `None`. -/
def Trade.return_pct (t : Trade) : Option ℚ :=
  match t.exit_date, t.exit_price with
  | some _, some p => if p = 0 then none else some ((p - t.entry_price) / t.entry_price * 100)
  | _, _ => none

/-- Embedding of the `Trade.return_dollars` property, with the same
truthiness guard on `exit_price` as `return_pct`. -/
def Trade.return_dollars (t : Trade) : Option ℚ :=
  match t.exit_date, t.exit_price with
  | some _, some p => if p = 0 then none else some ((p - t.entry_price) * t.shares)
  | _, _ => none

/-- Embedding of the `Trade.holding_days` property:
`(exit_date - entry_date).days` when the trade is closed (a `datetime` is
always truthy, so the guard reduces to `exit_date` being set). -/
def Trade.holding_days (t : Trade) : Option Int :=
  match t.exit_date with
  | some d => some (d - t.entry_date)
  | none => none

/-- Embedding of one element of `Portfolio.equity_curve` (the dict appended
by `Portfolio.record_day`). -/
structure EquitySnapshot where
  date : Int
  portfolio_value : ℚ
  cash : ℚ
  position_value : ℚ
  shares_held : ℚ
deriving DecidableEq, Repr

/-- Embedding of the mutable state of the `Portfolio` class from
`portfolio.py`. -/
structure Portfolio where
  starting_capital : ℚ
  cash : ℚ
  commission_pct : ℚ
  shares_held : ℚ
  position_entry_price : ℚ
  trades : List Trade
  current_trade : Option Trade
  equity_curve : List EquitySnapshot
deriving DecidableEq, Repr

/-- Embedding of `Portfolio.__init__`. -/
def Portfolio.init (starting_capital commission_pct : ℚ) : Portfolio :=
  { starting_capital := starting_capital
    cash := starting_capital
    commission_pct := commission_pct
    shares_held := 0
    position_entry_price := 0
    trades := []
    current_trade := none
    equity_curve := [] }

/-- Embedding of `Portfolio.has_position`: `self.shares_held > 0`. -/
def Portfolio.has_position (p : Portfolio) : Bool := decide (0 < p.shares_held)

/-- Embedding of `Portfolio.get_position_value`. -/
def Portfolio.get_position_value (p : Portfolio) (current_price : ℚ) : ℚ :=
  p.shares_held * current_price

/-- Embedding of `Portfolio.get_total_value`: cash plus position value. -/
def Portfolio.get_total_value (p : Portfolio) (current_price : ℚ) : ℚ :=
  p.cash + p.get_position_value current_price

/-- Embedding of `Portfolio.buy`.  Returns the Python boolean result paired
with the (possibly unchanged) state.  When `shares` is `None` the size is
`cash * (1 - commission_pct) / price`; the order is refused without
mutation when a position is already held or when
`total_cost = shares*price + shares*price*commission_pct` exceeds cash. -/
def Portfolio.buy (p : Portfolio) (date : Int) (price : ℚ) (shares : Option ℚ) :
    Bool × Portfolio :=
  if p.has_position then (false, p)
  else
    let sh : ℚ :=
      match shares with
      | none => p.cash * (1 - p.commission_pct) / price
      | some s => s
    let cost := sh * price
    let commission := cost * p.commission_pct
    let total_cost := cost + commission
    if total_cost > p.cash then (false, p)
    else
      (true,
        { p with
          cash := p.cash - total_cost
          shares_held := sh
          position_entry_price := price
          current_trade := some
            { entry_date := date, entry_price := price, shares := sh
              exit_date := none, exit_price := none } })

/-- Embedding of `Portfolio.sell`.  Refused without mutation when no
position is held; otherwise credits `shares_held*price*(1-commission_pct)`,
closes the open trade (appending it to the history) and resets the
position fields. -/
def Portfolio.sell (p : Portfolio) (date : Int) (price : ℚ) : Bool × Portfolio :=
  if !p.has_position then (false, p)
  else
    let proceeds := p.shares_held * price
    let commission := proceeds * p.commission_pct
    let net_proceeds := proceeds - commission
    let p1 := { p with cash := p.cash + net_proceeds }
    let p2 :=
      match p1.current_trade with
      | some t =>
          { p1 with
            trades := p1.trades ++ [{ t with exit_date := some date, exit_price := some price }]
            current_trade := none }
      | none => p1
    (true, { p2 with shares_held := 0, position_entry_price := 0 })

/-- Embedding of `Portfolio.record_day`: appends one `EquitySnapshot`
computed from the current state and the given price. -/
def Portfolio.record_day (p : Portfolio) (date : Int) (price : ℚ) : Portfolio :=
  { p with
    equity_curve := p.equity_curve ++
      [{ date := date
         portfolio_value := p.get_total_value price
         cash := p.cash
         position_value := p.get_position_value price
         shares_held := p.shares_held }] }

/-- Embedding of `Portfolio.get_closed_trades`. -/
def Portfolio.get_closed_trades (p : Portfolio) : List Trade :=
  p.trades.filter (fun t => !t.is_open)

/-- Embedding of the filter `t.return_pct and t.return_pct > 0` used by
`get_winning_trades` and `calculate_trade_statistics`.  The Python `and`
first tests the truthiness of `return_pct`: both `None` and `0.0` are
falsy and short-circuit to exclusion. -/
def winningFilter (t : Trade) : Bool :=
  match t.return_pct with
  | some r => decide (r ≠ 0) && decide (0 < r)
  | none => false

/-- Embedding of the filter `t.return_pct and t.return_pct <= 0` used by
`get_losing_trades` and `calculate_trade_statistics`, with the same
truthiness short-circuit (a return of exactly `0.0` is falsy and is
therefore excluded before the `<= 0` comparison is reached). -/
def losingFilter (t : Trade) : Bool :=
  match t.return_pct with
  | some r => decide (r ≠ 0) && decide (r ≤ 0)
  | none => false

/-- Embedding of `Portfolio.get_winning_trades`. -/
def Portfolio.get_winning_trades (p : Portfolio) : List Trade :=
  p.get_closed_trades.filter winningFilter

/-- Embedding of `Portfolio.get_losing_trades`. -/
def Portfolio.get_losing_trades (p : Portfolio) : List Trade :=
  p.get_closed_trades.filter losingFilter

/-!
Embedding of `preformance_metrics.py`.  Equity curves are lists of
portfolio values (the `pd.Series` the engine builds from the equity
snapshots).  pandas sample standard deviation (`ddof=1`) of fewer than two
observations is NaN; this is modelled by `sampleVar` returning `none`, and
the float comparison `std == 0` (false for NaN) by comparison with
`some 0`.
-/

/-- Embedding of `equity_curve.pct_change().dropna()`: the list of
consecutive relative changes, the undefined first element dropped. -/
def pct_change : List ℚ → List ℚ
  | [] => []
  | [_] => []
  | a :: b :: rest => (b - a) / a :: pct_change (b :: rest)

/-- Arithmetic mean of a list of rationals (`Series.mean`). -/
def listMean (xs : List ℚ) : ℚ := xs.sum / (xs.length : ℚ)

/-- Sample variance with `ddof=1`, the square of pandas `Series.std`.
With fewer than two observations pandas yields NaN, modelled as `none`;
`std == 0` holds in floats exactly when the variance is zero (IEEE sqrt of
a positive float is positive), so the zero test on `std` is faithfully the
test `sampleVar = some 0`. -/
def sampleVar (xs : List ℚ) : Option ℚ :=
  if xs.length < 2 then none
  else some ((xs.map (fun x => (x - listMean xs) ^ 2)).sum / ((xs.length : ℚ) - 1))

/-- Result of `calculate_sharpe_ratio`.  `zero` is the literal `0` fallback,
`nanValue` records that the float computation produces NaN (division by a
NaN standard deviation), and `finite num v` denotes the float value
`num / (sqrt v * sqrt 252)` where `num = mean(daily_returns)*252 - rf` and
`v` is the sample variance of the daily returns; the irrational square
roots are kept symbolic so the embedding stays exact. -/
inductive SharpeResult where
  | zero
  | nanValue
  | finite (numerator variance : ℚ)
deriving DecidableEq, Repr

/-- Embedding of `PerformanceMetrics.calculate_sharpe_ratio`.  The source
guard is `if len(daily_returns) == 0 or daily_returns.std() == 0: return 0`.
With exactly one daily return, `std()` is NaN and `NaN == 0` is false, so
the guard does not fire and the subsequent division returns NaN
(`nanValue`). -/
def calculate_sharpe_ratio (equity_curve : List ℚ) (risk_free_rate : ℚ) : SharpeResult :=
  let daily_returns := pct_change equity_curve
  match sampleVar daily_returns with
  | none =>
      if daily_returns.length = 0 then SharpeResult.zero
      else SharpeResult.nanValue
  | some v =>
      if v = 0 then SharpeResult.zero
      else SharpeResult.finite (listMean daily_returns * 252 - risk_free_rate) v

/-- Embedding of `equity_curve.expanding().max()` from the second element
on, starting from an already-seen maximum `m`. -/
def expandingMaxAux (m : ℚ) : List ℚ → List ℚ
  | [] => []
  | x :: xs => max m x :: expandingMaxAux (max m x) xs

/-- Embedding of `equity_curve.expanding().max()`: the running maximum of
each prefix (the running maximum at the first element is that element). -/
def expandingMax : List ℚ → List ℚ
  | [] => []
  | x :: xs => x :: expandingMaxAux x xs

/-- The drawdown series `(equity_curve - running_max) / running_max * 100`
from `calculate_max_drawdown`. -/
def drawdownList (equity_curve : List ℚ) : List ℚ :=
  (equity_curve.zip (expandingMax equity_curve)).map (fun p => (p.1 - p.2) / p.2 * 100)

/-- Embedding of `PerformanceMetrics.calculate_max_drawdown`: the minimum
of the drawdown series.  `drawdown.min()` of an empty series is NaN, which
the `isnan` fallback turns into `0`; for a nonempty series of positive
values the minimum is a plain float and the fallback is inert. -/
def calculate_max_drawdown (equity_curve : List ℚ) : ℚ :=
  match drawdownList equity_curve with
  | [] => 0
  | d :: ds => ds.foldl min d

/-- Result record of `PerformanceMetrics.calculate_trade_statistics`. -/
structure TradeStats where
  total_trades : Nat
  winning_trades : Nat
  losing_trades : Nat
  win_rate_pct : ℚ
  avg_win_pct : ℚ
  avg_loss_pct : ℚ
  profit_factor : ℚ
  avg_holding_days : ℚ
deriving DecidableEq, Repr

/-- Embedding of `PerformanceMetrics.calculate_trade_statistics`.  The
winning/losing partitions use the same truthiness-guarded filters as the
portfolio (`t.return_pct and t.return_pct > 0` resp. `... <= 0`).  The
generator sums read the float out of the already-filtered trades, so the
`getD 0` default is never exercised on a filtered trade; `holding_days` is
summed over all trades handed in (the engine hands in closed trades only,
for which it is always set). -/
def calculate_trade_statistics (trades : List Trade) : TradeStats :=
  if trades.isEmpty then
    { total_trades := 0, winning_trades := 0, losing_trades := 0, win_rate_pct := 0
      avg_win_pct := 0, avg_loss_pct := 0, profit_factor := 0, avg_holding_days := 0 }
  else
    let winning_trades := trades.filter winningFilter
    let losing_trades := trades.filter losingFilter
    let win_rate := ((winning_trades.length : ℚ) / (trades.length : ℚ)) * 100
    let avg_win :=
      if winning_trades.isEmpty then 0
      else (winning_trades.map (fun t => t.return_pct.getD 0)).sum / (winning_trades.length : ℚ)
    let avg_loss :=
      if losing_trades.isEmpty then 0
      else (losing_trades.map (fun t => t.return_pct.getD 0)).sum / (losing_trades.length : ℚ)
    let total_wins :=
      if winning_trades.isEmpty then 0
      else (winning_trades.map (fun t => t.return_dollars.getD 0)).sum
    let total_losses :=
      if losing_trades.isEmpty then 0
      else |(losing_trades.map (fun t => t.return_dollars.getD 0)).sum|
    let profit_factor := if 0 < total_losses then total_wins / total_losses else 0
    let avg_days :=
      (trades.map (fun t => ((t.holding_days.getD 0 : Int) : ℚ))).sum / (trades.length : ℚ)
    { total_trades := trades.length
      winning_trades := winning_trades.length
      losing_trades := losing_trades.length
      win_rate_pct := win_rate
      avg_win_pct := avg_win
      avg_loss_pct := avg_loss
      profit_factor := profit_factor
      avg_holding_days := avg_days }

/-- Embedding of `PerformanceMetrics.calculate_total_return`.
`equity_curve.iloc[-1]` raises on an empty series; the engine only calls
this with a nonempty curve, so the `getLastD 0` default is unreachable
there. -/
def calculate_total_return (equity_curve : List ℚ) (starting_capital : ℚ) : ℚ :=
  let final_value := equity_curve.getLastD 0
  (final_value - starting_capital) / starting_capital * 100

/-- The part of the `calculate_all` metrics dictionary expressible in exact
arithmetic.  `annualized_return_pct` and `volatility` are real-valued
functions (a rational power of `1 + total_return_pct/100` and
`std * sqrt 252 * 100`) of `total_return_pct`, `num_days` and the daily
returns already recorded here; no claim concerns their values. -/
structure MetricsRecord where
  starting_capital : ℚ
  final_value : ℚ
  total_return_pct : ℚ
  sharpe_ratio : SharpeResult
  max_drawdown_pct : ℚ
  num_days : Nat
  trade_stats : TradeStats
deriving DecidableEq, Repr

/-- Embedding of `PerformanceMetrics.calculate_all`. -/
def calculate_all (equity_curve : List ℚ) (starting_capital : ℚ) (trades : List Trade)
    (risk_free_rate : ℚ) : MetricsRecord :=
  { starting_capital := starting_capital
    final_value := equity_curve.getLastD 0
    total_return_pct := calculate_total_return equity_curve starting_capital
    sharpe_ratio := calculate_sharpe_ratio equity_curve risk_free_rate
    max_drawdown_pct := calculate_max_drawdown equity_curve
    num_days := equity_curve.length
    trade_stats := calculate_trade_statistics trades }

/-!
Embedding of the strategy layer and `backtesting_engine.py`.  For the
engine simulation a price row is reduced to the fields the loop reads:
the date and `close_price`.  The column-level validation shared by every
`generate_signals` implementation is modelled separately over the list of
column names the input DataFrame carries.
-/

/-- Signal enumeration emitted by `generate_signals` (string values
`BUY` / `SELL` / `HOLD` in the source). -/
inductive Signal where
  | BUY
  | SELL
  | HOLD
deriving DecidableEq, Repr

/-- A price row as consumed by the engine loop: `date, row` from
`df.iterrows()` with `row['close_price']`. -/
structure Bar where
  date : Int
  close_price : ℚ
deriving DecidableEq, Repr

/-- Errors the engine run can surface.  `NoDataError` is the spec name for
the `ValueError("No data found for ...")` raised on an empty input series;
`StrategyError` carries the message of a `ValueError` raised by
`generate_signals` and propagated out of `run`. -/
inductive EngineError where
  | NoDataError
  | StrategyError (msg : String)
deriving DecidableEq, Repr

/-- Embedding of one iteration of the simulation loop in
`BacktestEngine.run`: `if signal == BUY and not has_position: buy`,
`elif signal == SELL and has_position: sell`, then `record_day` on the
post-trade state (same-day execution). -/
def engineStep (p : Portfolio) (sb : Signal × Bar) : Portfolio :=
  let p1 :=
    match sb.1 with
    | Signal.BUY => if p.has_position then p else (p.buy sb.2.date sb.2.close_price none).2
    | Signal.SELL => if p.has_position then (p.sell sb.2.date sb.2.close_price).2 else p
    | Signal.HOLD => p
  p1.record_day sb.2.date sb.2.close_price

/-- The simulation loop of `BacktestEngine.run`, driving a fresh
`Portfolio` through the signal/price series. -/
def engineSimulate (starting_capital commission_pct : ℚ) (signals : List Signal)
    (bars : List Bar) : Portfolio :=
  (signals.zip bars).foldl engineStep (Portfolio.init starting_capital commission_pct)

/-- Result of a completed engine run: final portfolio state, the equity
series handed to the metrics, and the metrics record. -/
structure RunResult where
  portfolio : Portfolio
  equity_series : List ℚ
  metrics : MetricsRecord
deriving DecidableEq, Repr

/-- Embedding of `BacktestEngine.run` after the data load: reject an empty
series, generate the signals, simulate day by day, force-close any
position still open at the final date/price, then compute the metrics
from the equity curve and the closed-trade list.  The risk-free rate is
the source default `0.02`.  `getLastD` needs a default only for the empty
list, which the initial guard already excluded. -/
def BacktestEngine.run (generate_signals : List Bar → Except EngineError (List Signal))
    (starting_capital commission_pct : ℚ) (df : List Bar) : Except EngineError RunResult :=
  if df.isEmpty then Except.error EngineError.NoDataError
  else
    match generate_signals df with
    | Except.error e => Except.error e
    | Except.ok signals =>
        let p1 := engineSimulate starting_capital commission_pct signals df
        let lastBar := df.getLastD { date := 0, close_price := 0 }
        let p2 := if p1.has_position then (p1.sell lastBar.date lastBar.close_price).2 else p1
        let equity_series := p2.equity_curve.map (fun s => s.portfolio_value)
        Except.ok
          { portfolio := p2
            equity_series := equity_series
            metrics := calculate_all equity_series starting_capital
              p2.get_closed_trades (1 / 50) }

/-- Embedding of `BuyAndHold.generate_signals` over the engine bars: the
required column `close_price` is present in every `Bar` by construction,
so validation passes; every day is `HOLD` and the first row is overwritten
with `BUY`. -/
def BuyAndHold.generate_signals (df : List Bar) : Except EngineError (List Signal) :=
  Except.ok
    (match df with
     | [] => []
     | _ :: rest => Signal.BUY :: rest.map (fun _ => Signal.HOLD))

/-- The column view of an input DataFrame, for the validation contract. -/
structure DataFrameCols where
  columns : List String
deriving DecidableEq, Repr

/-- The six concrete strategy variants, carrying the constructor
parameters that participate in required column names or in the display
name (thresholds and multipliers affect neither and are omitted). -/
inductive StrategyVariant where
  | buyAndHold
  | smaCrossover (short_window long_window : Nat)
  | breakout (window : Nat)
  | volatilityBreakout (sma_window atr_window : Nat)
  | bollingerMeanReversion
  | volumeMomentum (volume_window : Nat)
deriving DecidableEq, Repr

/-- Embedding of each variant `get_required_columns`. -/
def get_required_columns : StrategyVariant → List String
  | StrategyVariant.buyAndHold => ["close_price"]
  | StrategyVariant.smaCrossover s l =>
      ["close_price", "sma_" ++ toString s, "sma_" ++ toString l]
  | StrategyVariant.breakout w => ["close_price", "sma_" ++ toString w]
  | StrategyVariant.volatilityBreakout s a =>
      ["close_price", "sma_" ++ toString s, "atr_" ++ toString a]
  | StrategyVariant.bollingerMeanReversion =>
      ["close_price", "bollinger_upper", "bollinger_middle", "bollinger_lower"]
  | StrategyVariant.volumeMomentum v =>
      ["close_price", "volume", "volume_sma_" ++ toString v, "volume_ratio"]

/-- The `self.name` each variant passes to the base constructor. -/
def strategyName : StrategyVariant → String
  | StrategyVariant.buyAndHold => "Buy and Hold"
  | StrategyVariant.smaCrossover s l =>
      "SMA Crossover (" ++ toString s ++ "/" ++ toString l ++ ")"
  | StrategyVariant.breakout w => "Breakout (" ++ toString w ++ "-day)"
  | StrategyVariant.volatilityBreakout _ _ => "ATR Volatility Breakout"
  | StrategyVariant.bollingerMeanReversion => "Bollinger Mean Reversion"
  | StrategyVariant.volumeMomentum _ => "Volume Momentum"

/-- Embedding of `missing = [col for col in required if col not in df.columns]`
from `BaseStrategy.validate_data`. -/
def missingColumns (s : StrategyVariant) (df : DataFrameCols) : List String :=
  (get_required_columns s).filter (fun col => !df.columns.contains col)

/-- Embedding of `BaseStrategy.validate_data`: true exactly when no
required column is missing (the missing names are printed to the console,
not returned). -/
def validate_data (s : StrategyVariant) (df : DataFrameCols) : Bool :=
  (missingColumns s df).isEmpty

/-- Column-level embedding of the `generate_signals` prologue shared
verbatim by all six variants: validate and raise
`ValueError(f"DataFrame missing required columns for {self.name}")` on
failure, otherwise compute the per-row signals and add a `signal` column.
Only the validation/error path is modelled; per-row signal values are out
of scope of this column view (they raise no further input error). -/
def generate_signals_validation (s : StrategyVariant) (df : DataFrameCols) :
    Except String DataFrameCols :=
  if validate_data s df then
    Except.ok { columns := df.columns ++ ["signal"] }
  else
    Except.error ("DataFrame missing required columns for " ++ strategyName s)

/-- Substring test over character lists, used to state whether an error
message names a column. -/
def containsSub (hay needle : List Char) : Bool :=
  hay.tails.any (fun t => needle.isPrefixOf t)

/-- Whether the string `field` occurs inside the message `msg`. -/
def msgNames (msg field : String) : Bool := containsSub msg.toList field.toList

/-!
Operation sequences over a `Portfolio`, for the state-machine invariant
claims: each operation is one public mutating call of the class.
-/

/-- One mutating call on a `Portfolio`. -/
inductive Op where
  | buyOp (date : Int) (price : ℚ) (shares : Option ℚ)
  | sellOp (date : Int) (price : ℚ)
  | recordOp (date : Int) (price : ℚ)
deriving DecidableEq, Repr

/-- Apply one operation (the boolean result of `buy`/`sell` is dropped, as
a caller that ignores it would). -/
def applyOp (p : Portfolio) : Op → Portfolio
  | Op.buyOp d pr sh => (p.buy d pr sh).2
  | Op.sellOp d pr => (p.sell d pr).2
  | Op.recordOp d pr => p.record_day d pr

/-- Run a sequence of operations from a given state. -/
def runOps (p : Portfolio) (ops : List Op) : Portfolio := ops.foldl applyOp p

/-- The spec invariant: a position is held exactly when an open trade
exists, and `position_entry_price` is that trade's entry price. -/
def openTradeInv (p : Portfolio) : Prop :=
  (0 < p.shares_held ↔ p.current_trade.isSome = true) ∧
  (∀ t, p.current_trade = some t → p.position_entry_price = t.entry_price)

/-- Well-formedness conditions of one operation under which the invariant
is preserved: positive price, and any explicitly sized buy requests a
positive share count. -/
def opOK : Op → Prop
  | Op.buyOp _ price shares => 0 < price ∧ ∀ s, shares = some s → 0 < s
  | Op.sellOp _ price => 0 < price
  | Op.recordOp _ _ => True

/-- Inductive strengthening of the invariant: nonnegative share count and
cash, cash strictly positive whenever flat, commission in `[0, 1)`, and
the open-trade invariant itself. -/
def portfolioWF (p : Portfolio) : Prop :=
  0 ≤ p.commission_pct ∧ p.commission_pct < 1 ∧
  0 ≤ p.shares_held ∧ 0 ≤ p.cash ∧ (p.shares_held = 0 → 0 < p.cash) ∧ openTradeInv p

theorem portfolioWF_init (sc c : ℚ) (hsc : 0 < sc) (hc0 : 0 ≤ c) (hc1 : c < 1) :
    portfolioWF (Portfolio.init sc c) := by
  refine ⟨hc0, hc1, le_refl 0, le_of_lt hsc, fun _ => hsc, ?_, ?_⟩
  · simp [Portfolio.init]
  · intro t ht
    simp [Portfolio.init] at ht


/-!
Characterization lemmas for `buy` and `sell`, used by all portfolio and
engine proofs below.
-/

/-- The share count a buy will use: the explicit count, or the all-in size
`cash * (1 - commission_pct) / price`. -/
def buySharesVal (p : Portfolio) (price : ℚ) (shares : Option ℚ) : ℚ :=
  match shares with
  | none => p.cash * (1 - p.commission_pct) / price
  | some s => s

/-- The `total_cost = cost + commission` a buy will charge. -/
def buyTotalCost (p : Portfolio) (price : ℚ) (shares : Option ℚ) : ℚ :=
  buySharesVal p price shares * price +
    buySharesVal p price shares * price * p.commission_pct

theorem buy_of_position (p : Portfolio) (d : Int) (pr : ℚ) (sh : Option ℚ)
    (hpos : p.has_position = true) : p.buy d pr sh = (false, p) := by
  simp [Portfolio.buy, hpos]

theorem buy_of_cost (p : Portfolio) (d : Int) (pr : ℚ) (sh : Option ℚ)
    (hcost : buyTotalCost p pr sh > p.cash) : p.buy d pr sh = (false, p) := by
  by_cases hpos : p.has_position
  · simp [Portfolio.buy, hpos]
  · simp only [Portfolio.buy, hpos, Bool.false_eq_true, if_false]
    rw [if_pos]
    exact hcost

theorem buy_success (p : Portfolio) (d : Int) (pr : ℚ) (sh : Option ℚ)
    (hpos : p.has_position = false) (hcost : ¬ buyTotalCost p pr sh > p.cash) :
    p.buy d pr sh =
      (true,
        { p with
          cash := p.cash - buyTotalCost p pr sh
          shares_held := buySharesVal p pr sh
          position_entry_price := pr
          current_trade := some
            { entry_date := d, entry_price := pr, shares := buySharesVal p pr sh
              exit_date := none, exit_price := none } }) := by
  simp only [Portfolio.buy, hpos, Bool.false_eq_true, if_false]
  rw [if_neg]
  · rfl
  · exact hcost

theorem sell_of_flat (p : Portfolio) (d : Int) (pr : ℚ)
    (hpos : p.has_position = false) : p.sell d pr = (false, p) := by
  simp [Portfolio.sell, hpos]

theorem sell_success (p : Portfolio) (d : Int) (pr : ℚ) (t : Trade)
    (hpos : p.has_position = true) (ht : p.current_trade = some t) :
    p.sell d pr =
      (true,
        { p with
          cash := p.cash + (p.shares_held * pr - p.shares_held * pr * p.commission_pct)
          shares_held := 0
          position_entry_price := 0
          trades := p.trades ++ [{ t with exit_date := some d, exit_price := some pr }]
          current_trade := none }) := by
  simp [Portfolio.sell, hpos, ht]

theorem sell_success_no_trade (p : Portfolio) (d : Int) (pr : ℚ)
    (hpos : p.has_position = true) (ht : p.current_trade = none) :
    p.sell d pr =
      (true,
        { p with
          cash := p.cash + (p.shares_held * pr - p.shares_held * pr * p.commission_pct)
          shares_held := 0
          position_entry_price := 0 }) := by
  simp [Portfolio.sell, hpos, ht]

theorem record_day_fields (p : Portfolio) (d : Int) (pr : ℚ) :
    (p.record_day d pr).cash = p.cash ∧
    (p.record_day d pr).shares_held = p.shares_held ∧
    (p.record_day d pr).position_entry_price = p.position_entry_price ∧
    (p.record_day d pr).trades = p.trades ∧
    (p.record_day d pr).current_trade = p.current_trade ∧
    (p.record_day d pr).commission_pct = p.commission_pct ∧
    (p.record_day d pr).equity_curve = p.equity_curve ++
      [{ date := d, portfolio_value := p.get_total_value pr, cash := p.cash
         position_value := p.get_position_value pr, shares_held := p.shares_held }] :=
  ⟨rfl, rfl, rfl, rfl, rfl, rfl, rfl⟩

theorem portfolioWF_buy (p : Portfolio) (d : Int) (pr : ℚ) (sh : Option ℚ)
    (hwf : portfolioWF p) (hpr : 0 < pr) (hsh : ∀ s, sh = some s → 0 < s) :
    portfolioWF ((p.buy d pr sh).2) := by
  obtain ⟨hc0, hc1, hs0, hcash, hflat, hinv⟩ := hwf
  by_cases hpos : p.has_position
  · rw [buy_of_position p d pr sh hpos]
    exact ⟨hc0, hc1, hs0, hcash, hflat, hinv⟩
  · have hpos' : p.has_position = false := by simpa using hpos
    by_cases hcost : buyTotalCost p pr sh > p.cash
    · rw [buy_of_cost p d pr sh hcost]
      exact ⟨hc0, hc1, hs0, hcash, hflat, hinv⟩
    · rw [buy_success p d pr sh hpos' hcost]
      have hsz : p.shares_held = 0 := by
        have hn : ¬ 0 < p.shares_held := by
          simpa [Portfolio.has_position] using hpos
        exact le_antisymm (not_lt.mp hn) hs0
      have hcpos : 0 < p.cash := hflat hsz
      have hshpos : 0 < buySharesVal p pr sh := by
        cases sh with
        | none =>
            have h1 : 0 < 1 - p.commission_pct := by linarith
            have h2 : 0 < p.cash * (1 - p.commission_pct) := mul_pos hcpos h1
            simpa [buySharesVal] using div_pos h2 hpr
        | some s => simpa [buySharesVal] using hsh s rfl
      refine ⟨hc0, hc1, le_of_lt hshpos, ?_, ?_, ?_, ?_⟩
      · simpa using sub_nonneg.mpr (not_lt.mp hcost)
      · intro h
        exact absurd h (ne_of_gt hshpos)
      · simpa using hshpos
      · intro t ht
        simp only [Option.some.injEq] at ht
        rw [← ht]

theorem portfolioWF_sell (p : Portfolio) (d : Int) (pr : ℚ)
    (hwf : portfolioWF p) (hpr : 0 < pr) : portfolioWF ((p.sell d pr).2) := by
  obtain ⟨hc0, hc1, hs0, hcash, hflat, hinv⟩ := hwf
  by_cases hpos : p.has_position
  · have hshpos : 0 < p.shares_held := by
      simpa [Portfolio.has_position] using hpos
    have hcash' : 0 < p.cash + (p.shares_held * pr - p.shares_held * pr * p.commission_pct) := by
      have h1 : 0 < 1 - p.commission_pct := by linarith
      have h2 : 0 < p.shares_held * pr := mul_pos hshpos hpr
      nlinarith
    obtain ⟨t, ht⟩ : ∃ t, p.current_trade = some t := by
      have := hinv.1.mp hshpos
      exact Option.isSome_iff_exists.mp this
    rw [sell_success p d pr t hpos ht]
    refine ⟨hc0, hc1, le_refl 0, le_of_lt hcash', fun _ => hcash', ?_, ?_⟩
    · simp
    · intro u hu
      simp at hu
  · have hpos' : p.has_position = false := by simpa using hpos
    rw [sell_of_flat p d pr hpos']
    exact ⟨hc0, hc1, hs0, hcash, hflat, hinv⟩

theorem portfolioWF_record (p : Portfolio) (d : Int) (pr : ℚ)
    (hwf : portfolioWF p) : portfolioWF (p.record_day d pr) := by
  obtain ⟨hc0, hc1, hs0, hcash, hflat, hinv⟩ := hwf
  exact ⟨hc0, hc1, hs0, hcash, hflat, hinv⟩

theorem portfolioWF_step (p : Portfolio) (op : Op) (hwf : portfolioWF p) (hop : opOK op) :
    portfolioWF (applyOp p op) := by
  cases op with
  | buyOp d pr sh => exact portfolioWF_buy p d pr sh hwf hop.1 hop.2
  | sellOp d pr => exact portfolioWF_sell p d pr hwf hop
  | recordOp d pr => exact portfolioWF_record p d pr hwf

theorem portfolioWF_runOps (ops : List Op) (p : Portfolio) (hwf : portfolioWF p)
    (hops : ∀ op ∈ ops, opOK op) : portfolioWF (runOps p ops) := by
  induction ops generalizing p with
  | nil => exact hwf
  | cons op rest ih =>
      have h1 : portfolioWF (applyOp p op) :=
        portfolioWF_step p op hwf (hops op (List.mem_cons_self op rest))
      have h2 : ∀ o ∈ rest, opOK o := fun o ho => hops o (List.mem_cons_of_mem op ho)
      exact ih (applyOp p op) h1 h2

/-!
Claim theorems.
-/

/-- C1 (counterexample).  The claim as stated is false: a buy executed
with an explicit share count of `0` succeeds (its total cost `0` does not
exceed cash), sets `current_trade`, and leaves `shares_held = 0`, so after
that single operation on a freshly constructed `Portfolio(10000, 0.001)`
the equivalence between holding shares and having an open trade fails. -/
theorem c1_counterexample :
    ¬ openTradeInv (runOps (Portfolio.init 10000 (1 / 1000)) [Op.buyOp 0 100 (some 0)]) := by
  intro h
  have hrun : runOps (Portfolio.init 10000 (1 / 1000)) [Op.buyOp 0 100 (some 0)]
      = ((Portfolio.init 10000 (1 / 1000)).buy 0 100 (some 0)).2 := rfl
  have hpos : (Portfolio.init 10000 (1 / 1000)).has_position = false := by
    norm_num [Portfolio.has_position, Portfolio.init]
  have hcost : ¬ buyTotalCost (Portfolio.init 10000 (1 / 1000)) 100 (some 0)
      > (Portfolio.init 10000 (1 / 1000)).cash := by
    norm_num [buyTotalCost, buySharesVal, Portfolio.init]
  have hbuy := buy_success (Portfolio.init 10000 (1 / 1000)) 0 100 (some 0) hpos hcost
  rw [hrun, hbuy] at h
  have h1 := h.1.mpr (by simp)
  simp [buySharesVal] at h1

/-- C1 (amended).  For every sequence of `buy`/`sell`/`record_day`
operations on a freshly constructed `Portfolio` with positive starting
capital and commission rate in `[0, 1)`, in which every operation uses a
positive price and every explicitly sized buy requests a positive share
count, the invariant holds after every operation: `shares_held > 0` iff an
open `Trade` exists, and `position_entry_price` is that trade's entry
price. -/
theorem c1_invariant (sc c : ℚ) (hsc : 0 < sc) (hc0 : 0 ≤ c) (hc1 : c < 1)
    (ops : List Op) (hops : ∀ op ∈ ops, opOK op) :
    openTradeInv (runOps (Portfolio.init sc c) ops) :=
  (portfolioWF_runOps ops (Portfolio.init sc c) (portfolioWF_init sc c hsc hc0 hc1) hops).2.2.2.2.2

/-- C1 (witness): the amended invariant at a concrete run. -/
theorem c1_invariant_witness :
    openTradeInv (runOps (Portfolio.init 10000 (1 / 1000))
      [Op.buyOp 0 100 none, Op.recordOp 0 100, Op.sellOp 1 110, Op.recordOp 1 110]) :=
  c1_invariant 10000 (1 / 1000) (by norm_num) (by norm_num) (by norm_num)
    _ (by
      intro op hop
      simp only [List.mem_cons, List.not_mem_nil, or_false] at hop
      rcases hop with h | h | h | h <;> subst h
      · exact ⟨by norm_num, fun s hs => by cases hs⟩
      · exact trivial
      · norm_num [opOK]
      · exact trivial)

/-- C4.  A rejected order mutates nothing: `buy` returns `False` with the
state unchanged when a position is already held or when the total cost
`shares*price*(1+commission_pct)` exceeds cash, and `sell` returns `False`
with the state unchanged when no position is held.  The returned state is
the whole unchanged `Portfolio` record (cash, shares, entry price, trade
history, open trade, equity curve). -/
theorem c4_rejected_orders_no_mutation (p : Portfolio) (d : Int) (pr : ℚ) (sh : Option ℚ) :
    (p.has_position = true → p.buy d pr sh = (false, p)) ∧
    (buyTotalCost p pr sh > p.cash → p.buy d pr sh = (false, p)) ∧
    (p.has_position = false → p.sell d pr = (false, p)) :=
  ⟨fun hpos => buy_of_position p d pr sh hpos,
   fun hcost => buy_of_cost p d pr sh hcost,
   fun hflat => sell_of_flat p d pr hflat⟩

/-- C4 (witness): concrete rejections.  A portfolio holding 10 shares
rejects a buy; a fresh portfolio with 100 in cash rejects a 2-share buy at
price 100 (cost 200) and rejects a sell. -/
theorem c4_rejected_orders_witness :
    (Portfolio.buy
        { starting_capital := 10000, cash := 500, commission_pct := 0, shares_held := 10
          position_entry_price := 100, trades := [], current_trade := none, equity_curve := [] }
        0 50 none
      = (false,
        { starting_capital := 10000, cash := 500, commission_pct := 0, shares_held := 10
          position_entry_price := 100, trades := [], current_trade := none, equity_curve := [] })) ∧
    ((Portfolio.init 100 0).buy 0 100 (some 2) = (false, Portfolio.init 100 0)) ∧
    ((Portfolio.init 100 0).sell 0 100 = (false, Portfolio.init 100 0)) := by
  refine ⟨(c4_rejected_orders_no_mutation _ 0 50 none).1 ?_,
    (c4_rejected_orders_no_mutation _ 0 100 (some 2)).2.1 ?_,
    (c4_rejected_orders_no_mutation _ 0 100 (some 2)).2.2 ?_⟩
  · norm_num [Portfolio.has_position]
  · norm_num [buyTotalCost, buySharesVal, Portfolio.init]
  · norm_num [Portfolio.has_position, Portfolio.init]

/-- C6.  An all-in buy (unspecified shares) from a flat portfolio with
nonnegative cash, positive price and commission rate in `[0, 1)` executes,
sizes the position to `cash*(1-commission_pct)/price`, deducts exactly
`shares*price*(1+commission_pct)`, which is at most the available cash, so
the remaining cash is never negative. -/
theorem c6_all_in_buy_never_negative (p : Portfolio) (d : Int) (pr : ℚ)
    (hflat : p.has_position = false) (hcash : 0 ≤ p.cash) (hpr : 0 < pr)
    (hc0 : 0 ≤ p.commission_pct) (hc1 : p.commission_pct < 1) :
    (p.buy d pr none).1 = true ∧
    ((p.buy d pr none).2).shares_held = p.cash * (1 - p.commission_pct) / pr ∧
    p.cash - ((p.buy d pr none).2).cash
      = (p.cash * (1 - p.commission_pct) / pr) * pr * (1 + p.commission_pct) ∧
    p.cash - ((p.buy d pr none).2).cash ≤ p.cash ∧
    0 ≤ ((p.buy d pr none).2).cash := by
  have hpr' : pr ≠ 0 := ne_of_gt hpr
  have hshares : buySharesVal p pr none = p.cash * (1 - p.commission_pct) / pr := rfl
  have hmul : p.cash * (1 - p.commission_pct) / pr * pr = p.cash * (1 - p.commission_pct) :=
    div_mul_cancel₀ _ hpr'
  have htotal : buyTotalCost p pr none
      = p.cash * (1 - p.commission_pct) * (1 + p.commission_pct) := by
    unfold buyTotalCost
    rw [hshares, hmul]
    ring
  have htc : buyTotalCost p pr none ≤ p.cash := by
    rw [htotal]
    nlinarith [sq_nonneg p.commission_pct]
  have hcost : ¬ buyTotalCost p pr none > p.cash := not_lt.mpr htc
  have hbuy := buy_success p d pr none hflat hcost
  rw [hbuy]
  refine ⟨rfl, hshares, ?_, ?_, ?_⟩
  · show p.cash - (p.cash - buyTotalCost p pr none)
        = p.cash * (1 - p.commission_pct) / pr * pr * (1 + p.commission_pct)
    rw [hmul, htotal]
    ring
  · show p.cash - (p.cash - buyTotalCost p pr none) ≤ p.cash
    have : p.cash - (p.cash - buyTotalCost p pr none) = buyTotalCost p pr none := by ring
    rw [this, htotal]
    nlinarith
  · show 0 ≤ p.cash - buyTotalCost p pr none
    rw [htotal]
    nlinarith [sq_nonneg p.commission_pct]

/-- C6 (witness): the spec example, `buy(d0, 100)` with `cash = 10000` and
`commission_pct = 0.001`. -/
theorem c6_all_in_buy_witness :
    ((Portfolio.init 10000 (1 / 1000)).buy 0 100 none).1 = true ∧
    (((Portfolio.init 10000 (1 / 1000)).buy 0 100 none).2).shares_held
      = 10000 * (1 - 1 / 1000) / 100 ∧
    (Portfolio.init 10000 (1 / 1000)).cash
        - (((Portfolio.init 10000 (1 / 1000)).buy 0 100 none).2).cash
      = 10000 * (1 - 1 / 1000) / 100 * 100 * (1 + 1 / 1000) ∧
    (Portfolio.init 10000 (1 / 1000)).cash
        - (((Portfolio.init 10000 (1 / 1000)).buy 0 100 none).2).cash
      ≤ (Portfolio.init 10000 (1 / 1000)).cash ∧
    0 ≤ (((Portfolio.init 10000 (1 / 1000)).buy 0 100 none).2).cash :=
  c6_all_in_buy_never_negative (Portfolio.init 10000 (1 / 1000)) 0 100
    (by norm_num [Portfolio.has_position, Portfolio.init])
    (by norm_num [Portfolio.init]) (by norm_num)
    (by norm_num [Portfolio.init]) (by norm_num [Portfolio.init])

/-- C2 (failing input).  On the two-point equity curve `[100, 110]` there
is exactly one daily-return observation.  The claim says the function
returns `0` with fewer than 2 observations and is never NaN; the code
checks `len(daily_returns) == 0`, so with one observation the guard does
not fire, the sample standard deviation is NaN (its comparison with `0` is
false), and the division returns NaN.  On a constant curve the zero-
variance guard does fire and the fallback `0` is returned as claimed. -/
theorem c2_sharpe_nan_on_single_observation :
    calculate_sharpe_ratio [100, 110] (1 / 50) = SharpeResult.nanValue ∧
    calculate_sharpe_ratio [100, 100, 100] (1 / 50) = SharpeResult.zero := by
  constructor
  · norm_num [calculate_sharpe_ratio, pct_change, sampleVar]
  · norm_num [calculate_sharpe_ratio, pct_change, sampleVar, listMean]

/-- C5 (failing input).  A single closed trade with `entry_price =
exit_price = 100` has `return_pct` exactly `0`.  The claim says such a
trade counts as losing and `winning + losing = total`; in the code the
truthiness guard `t.return_pct and ...` rejects `0.0` before the `<= 0`
comparison is reached, so the trade is counted in neither group:
`total_trades = 1` but `winning_trades = losing_trades = 0`. -/
theorem c5_zero_return_trade_uncounted :
    (calculate_trade_statistics
        [{ entry_date := 0, entry_price := 100, shares := 1
           exit_date := some 1, exit_price := some 100 }]).total_trades = 1 ∧
    (calculate_trade_statistics
        [{ entry_date := 0, entry_price := 100, shares := 1
           exit_date := some 1, exit_price := some 100 }]).winning_trades = 0 ∧
    (calculate_trade_statistics
        [{ entry_date := 0, entry_price := 100, shares := 1
           exit_date := some 1, exit_price := some 100 }]).losing_trades = 0 ∧
    (calculate_trade_statistics
          [{ entry_date := 0, entry_price := 100, shares := 1
             exit_date := some 1, exit_price := some 100 }]).winning_trades +
        (calculate_trade_statistics
          [{ entry_date := 0, entry_price := 100, shares := 1
             exit_date := some 1, exit_price := some 100 }]).losing_trades ≠
      (calculate_trade_statistics
        [{ entry_date := 0, entry_price := 100, shares := 1
           exit_date := some 1, exit_price := some 100 }]).total_trades := by
  refine ⟨?_, ?_, ?_, ?_⟩ <;>
    norm_num [calculate_trade_statistics, List.filter, winningFilter, losingFilter,
      Trade.return_pct]

/-!
Lemmas about the running maximum and the minimum fold, for the drawdown
claim.
-/

theorem foldl_min_mem (ds : List ℚ) (d : ℚ) : ds.foldl min d ∈ d :: ds := by
  induction ds generalizing d with
  | nil => simp
  | cons e ds ih =>
      have h := ih (min d e)
      rcases List.mem_cons.mp h with h1 | h1
      · rcases min_choice d e with hm | hm
        · rw [List.foldl_cons, h1, hm]
          exact List.mem_cons_self _ _
        · rw [List.foldl_cons, h1, hm]
          exact List.mem_cons_of_mem _ (List.mem_cons_self _ _)
      · exact List.mem_cons_of_mem _ (List.mem_cons_of_mem _ h1)

theorem foldl_min_le (ds : List ℚ) : ∀ d e, e ∈ d :: ds → ds.foldl min d ≤ e := by
  induction ds with
  | nil =>
      intro d e he
      simp only [List.mem_singleton] at he
      simp [he]
  | cons f ds ih =>
      intro d e he
      rw [List.foldl_cons]
      rcases List.mem_cons.mp he with h1 | h1
      · subst h1
        exact le_trans (ih (min e f) (min e f) (List.mem_cons_self _ _)) (min_le_left e f)
      · rcases List.mem_cons.mp h1 with h2 | h2
        · subst h2
          exact le_trans (ih (min d e) (min d e) (List.mem_cons_self _ _)) (min_le_right d e)
        · exact ih (min d f) e (List.mem_cons_of_mem _ h2)

theorem expandingMaxAux_bounds (xs : List ℚ) (m : ℚ) (hm : 0 < m)
    (hx : ∀ x ∈ xs, 0 < x) :
    ∀ pr ∈ xs.zip (expandingMaxAux m xs), pr.1 ≤ pr.2 ∧ 0 < pr.2 := by
  induction xs generalizing m with
  | nil => simp [expandingMaxAux]
  | cons y ys ih =>
      intro pr hpr
      rw [expandingMaxAux, List.zip_cons_cons] at hpr
      rcases List.mem_cons.mp hpr with h1 | h1
      · subst h1
        exact ⟨le_max_right m y, lt_max_of_lt_left hm⟩
      · exact ih (max m y) (lt_max_of_lt_left hm)
          (fun x hxx => hx x (List.mem_cons_of_mem _ hxx)) pr h1

theorem expandingMaxAux_of_chain (xs : List ℚ) (m : ℚ)
    (hchain : List.Chain (· ≤ ·) m xs) : expandingMaxAux m xs = xs := by
  induction xs generalizing m with
  | nil => rfl
  | cons y ys ih =>
      rcases List.chain_cons.mp hchain with ⟨hmy, hrest⟩
      rw [expandingMaxAux, max_eq_right hmy, ih y hrest]

theorem zip_self_mem (l : List ℚ) (z : ℚ × ℚ) (hz : z ∈ l.zip l) : z.1 = z.2 := by
  induction l with
  | nil => simp at hz
  | cons a t ih =>
      rw [List.zip_cons_cons] at hz
      rcases List.mem_cons.mp hz with h1 | h1
      · rw [h1]
      · exact ih h1

theorem drawdownList_nonpos (equity : List ℚ) (hpos : ∀ x ∈ equity, 0 < x) :
    ∀ d ∈ drawdownList equity, d ≤ 0 := by
  cases equity with
  | nil => simp [drawdownList]
  | cons x xs =>
      intro d hd
      have hx : 0 < x := hpos x (List.mem_cons_self _ _)
      rw [drawdownList, expandingMax, List.zip_cons_cons, List.map_cons] at hd
      rcases List.mem_cons.mp hd with h1 | h1
      · rw [h1]
        simp
      · rcases List.mem_map.mp h1 with ⟨pr, hpr, hfd⟩
        have hb := expandingMaxAux_bounds xs x hx
          (fun y hy => hpos y (List.mem_cons_of_mem _ hy)) pr hpr
        rw [← hfd]
        have hnum : pr.1 - pr.2 ≤ 0 := sub_nonpos.mpr hb.1
        have hdiv : (pr.1 - pr.2) / pr.2 ≤ 0 :=
          div_nonpos_iff.mpr (Or.inr ⟨hnum, le_of_lt hb.2⟩)
        nlinarith

theorem drawdownList_zero_of_chain (equity : List ℚ)
    (hchain : List.Chain' (· ≤ ·) equity) : ∀ d ∈ drawdownList equity, d = 0 := by
  cases equity with
  | nil => simp [drawdownList]
  | cons x xs =>
      intro d hd
      have haux : expandingMaxAux x xs = xs := expandingMaxAux_of_chain xs x hchain
      rw [drawdownList, expandingMax, haux, List.zip_cons_cons, List.map_cons] at hd
      rcases List.mem_cons.mp hd with h1 | h1
      · rw [h1]
        simp
      · rcases List.mem_map.mp h1 with ⟨pr, hpr, hfd⟩
        have hpz : pr.1 = pr.2 := zip_self_mem xs pr hpr
        rw [← hfd, hpz]
        simp

/-- C7.  For every nonempty equity curve of positive values the reported
maximum drawdown is the minimum over the days of
`(equity - running_max) / running_max * 100`: it belongs to that drawdown
series, is a lower bound of it, is always nonpositive, and equals exactly
`0` when the curve is non-decreasing (never falls below its running
peak). -/
theorem c7_max_drawdown_nonpos (equity : List ℚ) (hne : equity ≠ [])
    (hpos : ∀ x ∈ equity, 0 < x) :
    calculate_max_drawdown equity ∈ drawdownList equity ∧
    (∀ d ∈ drawdownList equity, calculate_max_drawdown equity ≤ d) ∧
    calculate_max_drawdown equity ≤ 0 ∧
    (List.Chain' (· ≤ ·) equity → calculate_max_drawdown equity = 0) := by
  cases equity with
  | nil => exact absurd rfl hne
  | cons x xs =>
      have hdl : drawdownList (x :: xs)
          = (x - x) / x * 100 ::
            (xs.zip (expandingMaxAux x xs)).map (fun p => (p.1 - p.2) / p.2 * 100) := rfl
      have hmd : calculate_max_drawdown (x :: xs)
          = ((xs.zip (expandingMaxAux x xs)).map
              (fun p => (p.1 - p.2) / p.2 * 100)).foldl min ((x - x) / x * 100) := by
        rw [calculate_max_drawdown, hdl]
      have hmem : calculate_max_drawdown (x :: xs) ∈ drawdownList (x :: xs) := by
        rw [hmd, hdl]
        exact foldl_min_mem _ _
      have hlb : ∀ d ∈ drawdownList (x :: xs), calculate_max_drawdown (x :: xs) ≤ d := by
        intro d hd
        rw [hmd]
        rw [hdl] at hd
        exact foldl_min_le _ _ d hd
      refine ⟨hmem, hlb, drawdownList_nonpos (x :: xs) hpos _ hmem, ?_⟩
      intro hchain
      exact drawdownList_zero_of_chain (x :: xs) hchain _ hmem

/-- C7 (witness): the concrete curve `[100, 120, 90, 110]`, whose maximum
drawdown is attained at the drop from the peak 120 to 90. -/
theorem c7_max_drawdown_witness :
    calculate_max_drawdown [100, 120, 90, 110] ∈ drawdownList [100, 120, 90, 110] ∧
    (∀ d ∈ drawdownList [100, 120, 90, 110],
      calculate_max_drawdown [100, 120, 90, 110] ≤ d) ∧
    calculate_max_drawdown [100, 120, 90, 110] ≤ 0 ∧
    (List.Chain' (· ≤ ·) ([100, 120, 90, 110] : List ℚ) →
      calculate_max_drawdown [100, 120, 90, 110] = 0) :=
  c7_max_drawdown_nonpos [100, 120, 90, 110] (by simp)
    (by
      intro x hx
      simp only [List.mem_cons, List.not_mem_nil, or_false] at hx
      rcases hx with h | h | h | h <;> rw [h] <;> norm_num)

/-- C8.  Handed an empty input series, the engine run fails with
`NoDataError` immediately: the result carries no signals, no portfolio and
no metrics, and the strategy is never consulted (the statement holds for
every `generate_signals` function whatsoever, so no signal generation can
have taken place). -/
theorem c8_empty_input_no_data_error
    (generate_signals : List Bar → Except EngineError (List Signal))
    (starting_capital commission_pct : ℚ) :
    BacktestEngine.run generate_signals starting_capital commission_pct []
      = Except.error EngineError.NoDataError := rfl

/-- C9 (counterexample).  The claim says the raised error names the
missing fields.  On a DataFrame carrying only `open_price`, BuyAndHold is
missing `close_price`, but the raised message is exactly
`DataFrame missing required columns for Buy and Hold`, which does not
contain the missing column name (`validate_data` prints the missing list
to the console; the exception does not carry it). -/
theorem c9_counterexample :
    missingColumns StrategyVariant.buyAndHold { columns := ["open_price"] }
      = ["close_price"] ∧
    generate_signals_validation StrategyVariant.buyAndHold { columns := ["open_price"] }
      = Except.error "DataFrame missing required columns for Buy and Hold" ∧
    msgNames "DataFrame missing required columns for Buy and Hold" "close_price" = false := by
  exact ⟨by decide, rfl, by decide⟩

/-- C9 (amended).  For every strategy variant and every input missing at
least one required field, `generate_signals` fails before computing
anything, with an error whose message names the strategy (the missing
field names are printed to the console but are not part of the raised
error), and no `signal` column is produced (the run yields no
DataFrame). -/
theorem c9_missing_fields_error (s : StrategyVariant) (df : DataFrameCols)
    (hmiss : missingColumns s df ≠ []) :
    generate_signals_validation s df
      = Except.error ("DataFrame missing required columns for " ++ strategyName s) := by
  unfold generate_signals_validation validate_data
  rw [if_neg]
  simp only [List.isEmpty_iff]
  exact hmiss

/-- C9 (witness): SMA crossover (5/20) on a DataFrame missing both SMA
columns. -/
theorem c9_missing_fields_error_witness :
    generate_signals_validation (StrategyVariant.smaCrossover 5 20)
        { columns := ["close_price", "volume"] }
      = Except.error
          ("DataFrame missing required columns for "
            ++ strategyName (StrategyVariant.smaCrossover 5 20)) :=
  c9_missing_fields_error (StrategyVariant.smaCrossover 5 20)
    { columns := ["close_price", "volume"] } (by decide)

/-!
Helper lemmas about the engine loop, for the round-trip and forced-close
claims.
-/

theorem buy_commission (p : Portfolio) (d : Int) (pr : ℚ) (sh : Option ℚ) :
    ((p.buy d pr sh).2).commission_pct = p.commission_pct := by
  by_cases hpos : p.has_position
  · rw [buy_of_position p d pr sh hpos]
  · have hpos' : p.has_position = false := by simpa using hpos
    by_cases hcost : buyTotalCost p pr sh > p.cash
    · rw [buy_of_cost p d pr sh hcost]
    · rw [buy_success p d pr sh hpos' hcost]

theorem sell_commission (p : Portfolio) (d : Int) (pr : ℚ) :
    ((p.sell d pr).2).commission_pct = p.commission_pct := by
  by_cases hpos : p.has_position
  · cases htr : p.current_trade with
    | none => rw [sell_success_no_trade p d pr hpos htr]
    | some t => rw [sell_success p d pr t hpos htr]
  · have hpos' : p.has_position = false := by simpa using hpos
    rw [sell_of_flat p d pr hpos']

theorem sell_cash (p : Portfolio) (d : Int) (pr : ℚ) (hpos : p.has_position = true) :
    ((p.sell d pr).2).cash
      = p.cash + (p.shares_held * pr - p.shares_held * pr * p.commission_pct) := by
  cases htr : p.current_trade with
  | none => rw [sell_success_no_trade p d pr hpos htr]
  | some t => rw [sell_success p d pr t hpos htr]

theorem sell_equity (p : Portfolio) (d : Int) (pr : ℚ) :
    ((p.sell d pr).2).equity_curve = p.equity_curve := by
  by_cases hpos : p.has_position
  · cases htr : p.current_trade with
    | none => rw [sell_success_no_trade p d pr hpos htr]
    | some t => rw [sell_success p d pr t hpos htr]
  · have hpos' : p.has_position = false := by simpa using hpos
    rw [sell_of_flat p d pr hpos']

theorem engineStep_commission (p : Portfolio) (sb : Signal × Bar) :
    (engineStep p sb).commission_pct = p.commission_pct := by
  unfold engineStep
  cases sb.1 with
  | BUY =>
      by_cases h : p.has_position
      · simp only [h, if_true]
        rfl
      · simp only [h, Bool.false_eq_true, if_false]
        exact buy_commission p sb.2.date sb.2.close_price none
  | SELL =>
      by_cases h : p.has_position
      · simp only [h, if_true]
        exact sell_commission p sb.2.date sb.2.close_price
      · simp only [h, Bool.false_eq_true, if_false]
        rfl
  | HOLD => rfl

theorem engineLoop_commission (zl : List (Signal × Bar)) :
    ∀ p : Portfolio, (zl.foldl engineStep p).commission_pct = p.commission_pct := by
  induction zl with
  | nil => intro p; rfl
  | cons x xs ih =>
      intro p
      rw [List.foldl_cons, ih (engineStep p x), engineStep_commission]

theorem engineLoop_last_snapshot :
    ∀ (zl : List (Signal × Bar)) (p : Portfolio) (x : Signal × Bar),
      zl.getLast? = some x →
      (zl.foldl engineStep p).equity_curve.getLast?
        = some
          { date := x.2.date
            portfolio_value := (zl.foldl engineStep p).cash
              + (zl.foldl engineStep p).shares_held * x.2.close_price
            cash := (zl.foldl engineStep p).cash
            position_value := (zl.foldl engineStep p).shares_held * x.2.close_price
            shares_held := (zl.foldl engineStep p).shares_held } := by
  intro zl
  induction zl with
  | nil => intro p x hx; cases hx
  | cons y ys ih =>
      intro p x hx
      cases ys with
      | nil =>
          simp only [List.getLast?_singleton, Option.some.injEq] at hx
          subst hx
          rw [List.foldl_cons, List.foldl_nil]
          show (Portfolio.record_day _ _ _).equity_curve.getLast? = _
          rw [Portfolio.record_day]
          simp only [List.getLast?_concat]
          rfl
      | cons z zs =>
          rw [List.getLast?_cons_cons] at hx
          rw [List.foldl_cons]
          exact ih (engineStep p y) x hx

theorem zip_getLast?_pair :
    ∀ (rest : List Bar) (ss : List Signal) (b0 : Bar),
      ss.length = (b0 :: rest).length →
      ∃ sg, (ss.zip (b0 :: rest)).getLast? = some (sg, rest.getLastD b0) := by
  intro rest
  induction rest with
  | nil =>
      intro ss b0 hlen
      match ss, hlen with
      | [s0], _ => exact ⟨s0, rfl⟩
  | cons b1 rest2 ih =>
      intro ss b0 hlen
      match ss, hlen with
      | s0 :: ss2, hlen =>
          have hlen2 : ss2.length = (b1 :: rest2).length := by
            simpa using hlen
          obtain ⟨sg, hsg⟩ := ih ss2 b1 hlen2
          refine ⟨sg, ?_⟩
          have hne : ss2.zip (b1 :: rest2) ≠ [] := by
            intro hcon
            rw [hcon] at hsg
            cases hsg
          rw [List.zip_cons_cons, List.getLastD_cons]
          match hzz : ss2.zip (b1 :: rest2), hsg with
          | z :: zz, hsg =>
              rw [List.getLast?_cons_cons]
              exact hsg

theorem run_cons_eq (generate_signals : List Bar → Except EngineError (List Signal))
    (sc c : ℚ) (b0 : Bar) (rest : List Bar) (signals : List Signal)
    (hgen : generate_signals (b0 :: rest) = Except.ok signals)
    (hpos : (engineSimulate sc c signals (b0 :: rest)).has_position = true) :
    BacktestEngine.run generate_signals sc c (b0 :: rest)
      = Except.ok
          { portfolio := ((engineSimulate sc c signals (b0 :: rest)).sell
              ((b0 :: rest).getLastD { date := 0, close_price := 0 }).date
              ((b0 :: rest).getLastD { date := 0, close_price := 0 }).close_price).2
            equity_series := ((((engineSimulate sc c signals (b0 :: rest)).sell
              ((b0 :: rest).getLastD { date := 0, close_price := 0 }).date
              ((b0 :: rest).getLastD { date := 0, close_price := 0 }).close_price).2).equity_curve).map
                (fun s => s.portfolio_value)
            metrics := calculate_all
              (((((engineSimulate sc c signals (b0 :: rest)).sell
                ((b0 :: rest).getLastD { date := 0, close_price := 0 }).date
                ((b0 :: rest).getLastD { date := 0, close_price := 0 }).close_price).2).equity_curve).map
                  (fun s => s.portfolio_value))
              sc
              ((((engineSimulate sc c signals (b0 :: rest)).sell
                ((b0 :: rest).getLastD { date := 0, close_price := 0 }).date
                ((b0 :: rest).getLastD { date := 0, close_price := 0 }).close_price).2).get_closed_trades)
              (1 / 50) } := by
  unfold BacktestEngine.run
  rw [hgen]
  simp only [List.isEmpty_cons, Bool.false_eq_true, if_false, hpos, if_true]

/-- C10.  When the portfolio still holds a position after the simulation
loop, the final equity snapshot was recorded before the forced closing
sell, from the still-open position: the final `portfolio_value` handed to
the metrics equals `cash + shares_held * final_close` of the pre-close
state, and it exceeds the post-run cash by exactly
`shares_held * final_close * commission_pct` (the exit commission of the
forced close is not reflected in the reported final value). -/
theorem c10_forced_close_after_final_snapshot
    (generate_signals : List Bar → Except EngineError (List Signal))
    (sc c : ℚ) (b0 : Bar) (rest : List Bar) (signals : List Signal)
    (hgen : generate_signals (b0 :: rest) = Except.ok signals)
    (hlen : signals.length = (b0 :: rest).length)
    (hpos : (engineSimulate sc c signals (b0 :: rest)).has_position = true) :
    ∃ r s,
      BacktestEngine.run generate_signals sc c (b0 :: rest) = Except.ok r ∧
      (engineSimulate sc c signals (b0 :: rest)).equity_curve.getLast? = some s ∧
      s.portfolio_value
        = (engineSimulate sc c signals (b0 :: rest)).cash
          + (engineSimulate sc c signals (b0 :: rest)).shares_held
            * (rest.getLastD b0).close_price ∧
      r.metrics.final_value = s.portfolio_value ∧
      s.portfolio_value - r.portfolio.cash
        = (engineSimulate sc c signals (b0 :: rest)).shares_held
          * (rest.getLastD b0).close_price * c := by
  obtain ⟨sg, hsg⟩ := zip_getLast?_pair rest signals b0 hlen
  have hsnap := engineLoop_last_snapshot (signals.zip (b0 :: rest)) (Portfolio.init sc c)
    (sg, rest.getLastD b0) hsg
  have he : List.foldl engineStep (Portfolio.init sc c) (signals.zip (b0 :: rest))
      = engineSimulate sc c signals (b0 :: rest) := rfl
  rw [he] at hsnap
  have hrun := run_cons_eq generate_signals sc c b0 rest signals hgen hpos
  have hlb : (b0 :: rest).getLastD { date := 0, close_price := 0 } = rest.getLastD b0 :=
    List.getLastD_cons _ _ _
  have hcomm : (engineSimulate sc c signals (b0 :: rest)).commission_pct = c :=
    engineLoop_commission (signals.zip (b0 :: rest)) (Portfolio.init sc c)
  refine ⟨_, _, hrun, hsnap, rfl, ?_, ?_⟩
  · show (calculate_all _ sc _ (1 / 50)).final_value = _
    unfold calculate_all
    show (((engineSimulate sc c signals (b0 :: rest)).sell
        ((b0 :: rest).getLastD { date := 0, close_price := 0 }).date
        ((b0 :: rest).getLastD { date := 0, close_price := 0 }).close_price).2.equity_curve.map
          (fun s => s.portfolio_value)).getLastD 0 = _
    rw [sell_equity, List.getLastD_eq_getLast?, List.getLast?_map, hsnap]
    rfl
  · show _ - ((engineSimulate sc c signals (b0 :: rest)).sell
        ((b0 :: rest).getLastD { date := 0, close_price := 0 }).date
        ((b0 :: rest).getLastD { date := 0, close_price := 0 }).close_price).2.cash = _
    rw [sell_cash _ _ _ hpos, hlb, hcomm]
    ring

/-- C10 (witness): BuyAndHold on the single bar `(0, 100)` with starting
capital 10000 and zero commission. -/
theorem c10_forced_close_witness :
    ∃ r s,
      BacktestEngine.run BuyAndHold.generate_signals 10000 0 [{ date := 0, close_price := 100 }]
        = Except.ok r ∧
      (engineSimulate 10000 0 [Signal.BUY]
          [{ date := 0, close_price := 100 }]).equity_curve.getLast? = some s ∧
      s.portfolio_value
        = (engineSimulate 10000 0 [Signal.BUY] [{ date := 0, close_price := 100 }]).cash
          + (engineSimulate 10000 0 [Signal.BUY] [{ date := 0, close_price := 100 }]).shares_held
            * (100 : ℚ) ∧
      r.metrics.final_value = s.portfolio_value ∧
      s.portfolio_value - r.portfolio.cash
        = (engineSimulate 10000 0 [Signal.BUY] [{ date := 0, close_price := 100 }]).shares_held
          * (100 : ℚ) * 0 := by
  have h1 : (Portfolio.init 10000 0).has_position = false := by
    norm_num [Portfolio.has_position, Portfolio.init]
  have h2 : ¬ buyTotalCost (Portfolio.init 10000 0) 100 none > (Portfolio.init 10000 0).cash := by
    norm_num [buyTotalCost, buySharesVal, Portfolio.init]
  have hbuy := buy_success (Portfolio.init 10000 0) 0 100 none h1 h2
  have hes : engineSimulate 10000 0 [Signal.BUY] [{ date := 0, close_price := 100 }]
      = (((Portfolio.init 10000 0).buy 0 100 none).2).record_day 0 100 := by
    show ((if (Portfolio.init 10000 0).has_position = true then Portfolio.init 10000 0
        else ((Portfolio.init 10000 0).buy 0 100 none).2).record_day 0 100) = _
    rw [h1]
    simp only [Bool.false_eq_true, if_false]
  have hpos : (engineSimulate 10000 0 [Signal.BUY]
      [{ date := 0, close_price := 100 }]).has_position = true := by
    rw [hes, hbuy]
    norm_num [Portfolio.has_position, Portfolio.record_day, buySharesVal, Portfolio.init]
  exact c10_forced_close_after_final_snapshot BuyAndHold.generate_signals 10000 0
    { date := 0, close_price := 100 } [] [Signal.BUY] rfl rfl hpos

theorem holdLoop_fields (bars : List Bar) :
    ∀ p : Portfolio,
      (((bars.map (fun _ => Signal.HOLD)).zip bars).foldl engineStep p).cash = p.cash ∧
      (((bars.map (fun _ => Signal.HOLD)).zip bars).foldl engineStep p).shares_held
        = p.shares_held ∧
      (((bars.map (fun _ => Signal.HOLD)).zip bars).foldl engineStep p).trades = p.trades ∧
      (((bars.map (fun _ => Signal.HOLD)).zip bars).foldl engineStep p).current_trade
        = p.current_trade := by
  induction bars with
  | nil => intro p; exact ⟨rfl, rfl, rfl, rfl⟩
  | cons b bs ih =>
      intro p
      rw [List.map_cons, List.zip_cons_cons, List.foldl_cons]
      exact ih (engineStep p (Signal.HOLD, b))


/-- C3.  Running the engine with BuyAndHold on any nonempty series of
positive closes (with positive starting capital and commission rate in
`[0, 1)`) produces exactly one trade, which is closed: entered at the
first date and first close with the all-in share count, exited by the
forced close at the last date and last close. -/
theorem c3_buy_and_hold_round_trip (sc c : ℚ) (b0 : Bar) (rest : List Bar)
    (hposall : ∀ b ∈ b0 :: rest, 0 < b.close_price)
    (hsc : 0 < sc) (hc0 : 0 ≤ c) (hc1 : c < 1) :
    ∃ r, BacktestEngine.run BuyAndHold.generate_signals sc c (b0 :: rest) = Except.ok r ∧
      r.portfolio.trades
        = [{ entry_date := b0.date, entry_price := b0.close_price
             shares := sc * (1 - c) / b0.close_price
             exit_date := some (rest.getLastD b0).date
             exit_price := some (rest.getLastD b0).close_price }] ∧
      r.portfolio.get_closed_trades = r.portfolio.trades := by
  have hpr0 : 0 < b0.close_price := hposall b0 (List.mem_cons_self _ _)
  have hgen : BuyAndHold.generate_signals (b0 :: rest)
      = Except.ok (Signal.BUY :: rest.map (fun _ => Signal.HOLD)) := rfl
  have hflat : (Portfolio.init sc c).has_position = false := by
    norm_num [Portfolio.has_position, Portfolio.init]
  have hcost : ¬ buyTotalCost (Portfolio.init sc c) b0.close_price none
      > (Portfolio.init sc c).cash := by
    unfold buyTotalCost buySharesVal
    simp only [Portfolio.init]
    rw [div_mul_cancel₀ _ (ne_of_gt hpr0), not_lt]
    nlinarith [sq_nonneg c]
  have hbuy := buy_success (Portfolio.init sc c) b0.date b0.close_price none hflat hcost
  have hsv : buySharesVal (Portfolio.init sc c) b0.close_price none
      = sc * (1 - c) / b0.close_price := rfl
  have hsv_pos : 0 < buySharesVal (Portfolio.init sc c) b0.close_price none := by
    rw [hsv]
    have h1 : 0 < 1 - c := by linarith
    exact div_pos (mul_pos hsc h1) hpr0
  have hes : engineSimulate sc c (Signal.BUY :: rest.map (fun _ => Signal.HOLD)) (b0 :: rest)
      = ((rest.map (fun _ => Signal.HOLD)).zip rest).foldl engineStep
          ((((Portfolio.init sc c).buy b0.date b0.close_price none).2).record_day
            b0.date b0.close_price) := by
    show ((rest.map (fun _ => Signal.HOLD)).zip rest).foldl engineStep
        ((if (Portfolio.init sc c).has_position = true then Portfolio.init sc c
          else ((Portfolio.init sc c).buy b0.date b0.close_price none).2).record_day
          b0.date b0.close_price) = _
    rw [hflat]
    simp only [Bool.false_eq_true, if_false]
  have hfields := holdLoop_fields rest
    ((((Portfolio.init sc c).buy b0.date b0.close_price none).2).record_day
      b0.date b0.close_price)
  have hsh : (engineSimulate sc c (Signal.BUY :: rest.map (fun _ => Signal.HOLD))
      (b0 :: rest)).shares_held = buySharesVal (Portfolio.init sc c) b0.close_price none := by
    rw [hes, hfields.2.1, hbuy]
    rfl
  have hct : (engineSimulate sc c (Signal.BUY :: rest.map (fun _ => Signal.HOLD))
      (b0 :: rest)).current_trade
      = some { entry_date := b0.date, entry_price := b0.close_price
               shares := buySharesVal (Portfolio.init sc c) b0.close_price none
               exit_date := none, exit_price := none } := by
    rw [hes, hfields.2.2.2, hbuy]
    rfl
  have htr : (engineSimulate sc c (Signal.BUY :: rest.map (fun _ => Signal.HOLD))
      (b0 :: rest)).trades = [] := by
    rw [hes, hfields.2.2.1, hbuy]
    rfl
  have hpos1 : (engineSimulate sc c (Signal.BUY :: rest.map (fun _ => Signal.HOLD))
      (b0 :: rest)).has_position = true := by
    unfold Portfolio.has_position
    rw [hsh]
    exact decide_eq_true hsv_pos
  have hrun := run_cons_eq BuyAndHold.generate_signals sc c b0 rest
    (Signal.BUY :: rest.map (fun _ => Signal.HOLD)) hgen hpos1
  have hlb : (b0 :: rest).getLastD { date := 0, close_price := 0 } = rest.getLastD b0 :=
    List.getLastD_cons _ _ _
  have hsell := sell_success
    (engineSimulate sc c (Signal.BUY :: rest.map (fun _ => Signal.HOLD)) (b0 :: rest))
    ((b0 :: rest).getLastD { date := 0, close_price := 0 }).date
    ((b0 :: rest).getLastD { date := 0, close_price := 0 }).close_price
    _ hpos1 hct
  have htrfinal : (((engineSimulate sc c (Signal.BUY :: rest.map (fun _ => Signal.HOLD))
      (b0 :: rest)).sell
      ((b0 :: rest).getLastD { date := 0, close_price := 0 }).date
      ((b0 :: rest).getLastD { date := 0, close_price := 0 }).close_price).2).trades
      = [{ entry_date := b0.date, entry_price := b0.close_price
           shares := sc * (1 - c) / b0.close_price
           exit_date := some (rest.getLastD b0).date
           exit_price := some (rest.getLastD b0).close_price }] := by
    rw [hsell]
    show (engineSimulate sc c (Signal.BUY :: rest.map (fun _ => Signal.HOLD))
        (b0 :: rest)).trades ++ _ = _
    rw [htr, hlb]
    rfl
  refine ⟨_, hrun, htrfinal, ?_⟩
  show Portfolio.get_closed_trades
      (((engineSimulate sc c (Signal.BUY :: rest.map (fun _ => Signal.HOLD))
        (b0 :: rest)).sell
        ((b0 :: rest).getLastD { date := 0, close_price := 0 }).date
        ((b0 :: rest).getLastD { date := 0, close_price := 0 }).close_price).2)
      = (((engineSimulate sc c (Signal.BUY :: rest.map (fun _ => Signal.HOLD))
        (b0 :: rest)).sell
        ((b0 :: rest).getLastD { date := 0, close_price := 0 }).date
        ((b0 :: rest).getLastD { date := 0, close_price := 0 }).close_price).2).trades
  unfold Portfolio.get_closed_trades
  rw [htrfinal]
  rfl

/-- C3 (witness): BuyAndHold on the two-bar series `(0,100), (1,110)` with
starting capital 10000 and zero commission. -/
theorem c3_buy_and_hold_witness :
    ∃ r, BacktestEngine.run BuyAndHold.generate_signals 10000 0
        [{ date := 0, close_price := 100 }, { date := 1, close_price := 110 }]
        = Except.ok r ∧
      r.portfolio.trades
        = [{ entry_date := 0, entry_price := 100
             shares := 10000 * (1 - 0) / 100
             exit_date := some 1, exit_price := some 110 }] ∧
      r.portfolio.get_closed_trades = r.portfolio.trades :=
  c3_buy_and_hold_round_trip 10000 0 { date := 0, close_price := 100 }
    [{ date := 1, close_price := 110 }]
    (by
      intro b hb
      simp only [List.mem_cons, List.not_mem_nil, or_false] at hb
      rcases hb with h | h <;> subst h <;> norm_num)
    (by norm_num) (by norm_num) (by norm_num)
